import Mathlib

/-!
Verification of the idautils utility layer (idautils.py) against its
natural-language specification.  The engine primitives the layer calls
(byte/word reads and patches, the instruction decoder, the string-list
scanner, the line assembler) are external to the repository; they are
modelled here as explicit state and engine records following the interface
description of the spec (spec.md §6), while every function of the layer
itself is translated directly from src/tags/build-1.2.90/python/idautils.py.
-/

/-- Engine memory: a byte value at every address.  The engine stores bytes,
so a memory is any function from addresses to natural numbers; reads truncate
to a byte and patches store only a byte, mirroring the engine's byte
granularity (spec §6: byte/word/long/quad read, byte/word/long patch). -/
def Mem : Type := Nat → Nat

/-- Engine read primitive at width `w` (get_byte / get_word / get_long /
get_qword for w = 1, 2, 4, 8): the little-endian value of the `w` bytes at
`a`.  Each byte is taken mod 256 because the engine stores bytes. -/
def get_data (m : Mem) : Nat → Nat → Nat
  | 0, _ => 0
  | w + 1, a => m a % 256 + 256 * get_data m w (a + 1)

/-- Engine patch primitive at width `w` (patch_byte / patch_word /
patch_long): stores the `w` little-endian bytes of `v` at `a`. -/
def patch_data (m : Mem) : Nat → Nat → Nat → Mem
  | 0, _, _ => m
  | w + 1, a, v => patch_data (fun x => if x = a then v % 256 else m x) w (a + 1) (v / 256)

/-- The value sequence produced by the loop of GetDataList: `count` words of
width `w` read at `w`-byte strides starting at `ea` (the Python loop
`while curea < endea` runs exactly `count` times for positive `w`). -/
def readWords (m : Mem) : Nat → Nat → Nat → List Nat
  | _, 0, _ => []
  | ea, c + 1, w => get_data m w ea :: readWords m (ea + w) c w

/-- The memory state after the loop of PutDataList: each value of the list
patched in sequence order at `w`-byte strides starting at `ea`. -/
def writeWords (m : Mem) : Nat → List Nat → Nat → Mem
  | _, [], _ => m
  | ea, v :: vs, w => writeWords (patch_data m w ea v) (ea + w) vs w

/-- GetDataList ea count itemsize (idautils.py): selects the read primitive
for itemsize 1, 2, 4 or 8 and yields `count` words; any other itemsize
raises ValueError, modelled as `none`. -/
def GetDataList (m : Mem) (ea count itemsize : Nat) : Option (List Nat) :=
  if itemsize = 1 ∨ itemsize = 2 ∨ itemsize = 4 ∨ itemsize = 8 then
    some (readWords m ea count itemsize)
  else
    none

/-- PutDataList ea datalist itemsize (idautils.py): selects the patch
primitive for itemsize 1, 2 or 4 and writes each value in order; for any
other itemsize `putdata` stays None and the assertion fails, modelled as
`none`.  Width 8 has no patch primitive in this layer. -/
def PutDataList (m : Mem) (ea : Nat) (datalist : List Nat) (itemsize : Nat) : Option Mem :=
  if itemsize = 1 ∨ itemsize = 2 ∨ itemsize = 4 then
    some (writeWords m ea datalist itemsize)
  else
    none

/-- MapDataList ea length func wordsize (idautils.py):
`PutDataList(ea, map(func, GetDataList(ea, length, wordsize)), wordsize)`.
In Python 2 `map` returns a fully materialized list, so the whole read pass
over the original memory completes before the first patch. -/
def MapDataList (m : Mem) (ea length : Nat) (func : Nat → Nat) (wordsize : Nat) : Option Mem :=
  match GetDataList m ea length wordsize with
  | none => none
  | some ws => PutDataList m ea (ws.map func) wordsize

/-- The engine constant o_void: the operand-kind sentinel terminating an
instruction's operand list. -/
def o_void : Nat := 0

/-- The engine constant o_reg: the operand kind of a plain register operand. -/
def o_reg : Nat := 1

/-- An engine operand record (op_t), as far as DecodeInstruction copies it:
operand kind, register number and data width code. -/
structure OpRec where
  type : Nat
  reg : Nat
  dtyp : Nat
deriving Repr, DecidableEq

/-- The class _reg_dtyp_t (idautils.py): a register's number and dtyp. -/
structure _reg_dtyp_t where
  reg : Nat
  dtyp : Nat
deriving Repr, DecidableEq

/-- The overloaded equality _reg_dtyp_t.__eq__ (idautils.py):
`(self.reg == other.reg) and (self.dtyp == other.dtyp)`.  It is duck-typed
in the source, reading only reg and dtyp of the other object. -/
def regDtypEqb (a b : _reg_dtyp_t) : Bool :=
  a.reg == b.reg && a.dtyp == b.dtyp

/-- An operand of a decoded instruction, the class _op (idautils.py): the
copied engine fields together with the _reg_dtyp_t identity installed by
`_reg_dtyp_t.__init__(self, op.reg, op.dtyp)`. -/
structure Operand where
  type : Nat
  reg : Nat
  dtyp : Nat
deriving Repr, DecidableEq

/-- The _reg_dtyp_t part of an operand (as installed by _op.__init__). -/
def Operand.rd (o : Operand) : _reg_dtyp_t :=
  { reg := o.reg, dtyp := o.dtyp }

/-- _op.__init__ (idautils.py): copy the engine operand record's fields. -/
def mkOp (t : OpRec) : Operand :=
  { type := t.type, reg := t.reg, dtyp := t.dtyp }

/-- _op.is_reg (idautils.py): the operand is the given processor register:
`self.type == idaapi.o_reg and self == r`. -/
def Operand.is_reg (o : Operand) (r : _reg_dtyp_t) : Bool :=
  o.type == o_reg && regDtypEqb o.rd r

/-- _op.has_reg (idautils.py): the operand accesses the given processor
register: `self.reg == r.reg`. -/
def Operand.has_reg (o : Operand) (r : _reg_dtyp_t) : Bool :=
  o.reg == r.reg

/-- The engine's current-instruction record (insn_t), as far as
DecodeInstruction copies it before attaching the operand list. -/
structure InsnRec where
  ea : Nat
  size : Nat
  itype : Nat
deriving Repr, DecidableEq

/-- The _insn value DecodeInstruction returns: the copied instruction fields
and the list of retained operands. -/
structure Insn where
  ea : Nat
  size : Nat
  itype : Nat
  Operands : List Operand
deriving Repr, DecidableEq

/-- The decoding side of the engine (spec §6): decode at an address
reporting a length, the current decoded record, the per-index operand query
and the architecture's maximum operand count (idaapi.UA_MAXOP). -/
structure DecEngine where
  decode_insn : Nat → Nat
  get_current_instruction : Nat → Option InsnRec
  get_instruction_operand : InsnRec → Nat → OpRec
  UA_MAXOP : Nat

/-- The operand loop of DecodeInstruction: for n in xrange(0, UA_MAXOP),
query operand n and stop at the first o_void operand.  `fuel` is the number
of indices still to visit, so the loop starts as `collectOps eng insn 0
eng.UA_MAXOP`. -/
def collectOps (eng : DecEngine) (insn : InsnRec) : Nat → Nat → List Operand
  | _, 0 => []
  | n, fuel + 1 =>
    let t := eng.get_instruction_operand insn n
    if t.type = o_void then [] else mkOp t :: collectOps eng insn (n + 1) fuel

/-- DecodeInstruction (idautils.py): decode the unit at `ea`; zero reported
length or a missing current record yield None; otherwise the engine record's
fields are copied and the operand loop builds the bounded operand list. -/
def DecodeInstruction (eng : DecEngine) (ea : Nat) : Option Insn :=
  if eng.decode_insn ea = 0 then none
  else
    match eng.get_current_instruction ea with
    | none => none
    | some insn =>
        some { ea := insn.ea, size := insn.size, itype := insn.itype,
               Operands := collectOps eng insn 0 eng.UA_MAXOP }

/-- Result of _insn.__getitem__: an operand, or the StopIteration raised by
the explicit bounds check, or the IndexError raised by the list indexing. -/
inductive ItemResult where
  | stopIteration
  | indexError
  | operand (o : Operand)
deriving Repr, DecidableEq

/-- _insn.__getitem__ (idautils.py): `if index > len(self.Operands): raise
StopIteration; return self.Operands[index]`.  An index equal to the length
passes the check and the list indexing raises IndexError instead. -/
def Insn.getItem (i : Insn) (index : Nat) : ItemResult :=
  if i.Operands.length < index then ItemResult.stopIteration
  else
    match i.Operands.get? index with
    | some o => ItemResult.operand o
    | none => ItemResult.indexError

/-- An engine string_info_t record: address, string type and byte length. -/
structure StrInfo where
  ea : Nat
  type : Nat
  length : Nat
deriving Repr, DecidableEq

/-- Strings.StringItem (idautils.py): the fields copied out of the engine's
string_info_t buffer. -/
structure StringItem where
  ea : Nat
  type : Nat
  length : Nat
deriving Repr, DecidableEq

/-- StringItem.__init__ (idautils.py): copy ea, type and length from the
engine record. -/
def mkStringItem (si : StrInfo) : StringItem :=
  { ea := si.ea, type := si.type, length := si.length }

/-- The strwinsetup_t options Strings.setup installs (idautils.py stores
strtypes, minlen, only_7bit, ea1, ea2 and display_only_existing_strings;
the ignore_instructions argument is accepted but never stored). -/
structure StrOptions where
  strtypes : Nat
  minlen : Nat
  only_7bit : Bool
  ea1 : Nat
  ea2 : Nat
  display_only_existing_strings : Bool
deriving Repr, DecidableEq

/-- The string-scanning side of the engine (spec §6): image bounds, the
scanner producing the kernel's string list for a range under the installed
options, and the by-index fetch, which may transiently fail. -/
structure StrEngine where
  minEA : Nat
  maxEA : Nat
  scan : StrOptions → Nat → Nat → List StrInfo
  get_strlist_item : Int → List StrInfo → Option StrInfo

/-- The state the Strings object and the engine's string list share: the
installed options, the kernel's current string list, and the object's
cached size attribute. -/
structure StringsState where
  opts : StrOptions
  strlist : List StrInfo
  size : Nat

/-- Python's `if not x: x = d` default for an optional address argument:
both a missing argument and an explicit 0 (falsy) are replaced by the
default. -/
def orDefault (x : Option Nat) (d : Nat) : Nat :=
  match x with
  | none => d
  | some v => if v = 0 then d else v

/-- Engine primitive refresh_strlist (spec §6/§4.5): rescans the range,
except that an empty range (ea1 = ea2) clears the kernel's string list —
the special case the source comment records ("when ea1=ea2 the kernel will
clear the cache"). -/
def refresh_strlist (eng : StrEngine) (opts : StrOptions) (ea1 ea2 : Nat) : List StrInfo :=
  if ea1 = ea2 then [] else eng.scan opts ea1 ea2

/-- Strings.refresh (idautils.py): apply the falsy defaults, ask the kernel
to rescan, and recompute size from get_strlist_qty. -/
def Strings.refresh (eng : StrEngine) (oea1 oea2 : Option Nat) (st : StringsState) :
    StringsState :=
  let ea1 := orDefault oea1 eng.minEA
  let ea2 := orDefault oea2 eng.maxEA
  let sl := refresh_strlist eng st.opts ea1 ea2
  { st with strlist := sl, size := sl.length }

/-- Strings.clear_cache (idautils.py): `self.refresh(0, 0)`. -/
def Strings.clear_cache (eng : StrEngine) (st : StringsState) : StringsState :=
  Strings.refresh eng (some 0) (some 0) st

/-- The constant Strings.STR_C, the default strtypes mask. -/
def Strings.STR_C : Nat := 1

/-- Strings.setup (idautils.py): build a strwinsetup_t from the arguments,
install it with set_strlist_options, then refresh (with no arguments, so
over the defaulted whole-image range). -/
def Strings.setup (eng : StrEngine) (strtypes minlen : Nat)
    (only_7bit ignore_instructions : Bool) (oea1 oea2 : Option Nat)
    (display_only_existing_strings : Bool) (st : StringsState) : StringsState :=
  let ea1 := orDefault oea1 eng.minEA
  let ea2 := orDefault oea2 eng.maxEA
  let t : StrOptions :=
    { strtypes := strtypes, minlen := minlen, only_7bit := only_7bit,
      ea1 := ea1, ea2 := ea2,
      display_only_existing_strings := display_only_existing_strings }
  Strings.refresh eng none none { st with opts := t }

/-- Strings.__init__ (idautils.py): when default_setup is requested, run
setup with all the default arguments (which rescans and recomputes size);
afterwards assign `self.size = 0` unconditionally. -/
def Strings.init (eng : StrEngine) (default_setup : Bool) (st0 : StringsState) :
    StringsState :=
  let st1 := if default_setup then
    Strings.setup eng Strings.STR_C 5 true false none none false st0
  else st0
  { st1 with size := 0 }

/-- Result of Strings.__getitem__: a populated item, the None returned on a
failed fetch, or the StopIteration raised by the bounds check. -/
inductive StrGetResult where
  | stopIteration
  | noneItem
  | item (s : StringItem)
deriving Repr, DecidableEq

/-- Strings.__getitem__ (idautils.py): `if index >= self.size: raise
StopIteration`; otherwise fetch by index from the engine, returning a copied
StringItem on success and None on failure.  The index is a Python integer,
so negative values reach the fetch. -/
def Strings.getItem (eng : StrEngine) (st : StringsState) (index : Int) : StrGetResult :=
  if (st.size : Int) ≤ index then StrGetResult.stopIteration
  else
    match eng.get_strlist_item index st.strlist with
    | some si => StrGetResult.item (mkStringItem si)
    | none => StrGetResult.noneItem

/-- An engine segment record, as far as _Assemble reads it: the selector and
the bitness. -/
structure Seg where
  sel : Nat
  bitness : Nat
deriving Repr, DecidableEq

/-- The assembling side of the engine (spec §6): segment lookup, selector
resolution, and the line assembler, which returns the produced byte buffer
or fails. -/
structure AsmEngine where
  getseg : Nat → Option Seg
  ask_selector : Nat → Nat
  assembleLine : Nat → Nat → Int → Nat → String → Option (List Nat)

/-- The engine state the assembler touches: the interaction-mode flag
(idc.Batch) and the log of buffers committed to engine memory, one `(address,
buffer)` entry per successful AssembleLine call. -/
structure AsmState where
  batch : Nat
  commits : List (Nat × List Nat)
deriving Repr, DecidableEq

/-- idc.Batch (spec §6): set the interaction-mode flag, returning its prior
value. -/
def Batch (v : Nat) (st : AsmState) : Nat × AsmState :=
  (st.batch, { st with batch := v })

/-- The effective instruction pointer _Assemble computes:
`ip = ea - (idaapi.ask_selector(seg.sel) << 4)`. -/
def effIP (eng : AsmEngine) (ea : Nat) (seg : Seg) : Int :=
  (ea : Int) - ((eng.ask_selector seg.sel <<< 4 : Nat) : Int)

/-- The loop of _Assemble (idautils.py): for each line, look up the segment
at the current address (failing with "No segment at ea" if none), compute
the effective instruction pointer `ea - (ask_selector(seg.sel) << 4)`, ask
the engine to assemble, abort with "Assembler failed: ..." when it fails,
and otherwise record the committed buffer, advance the address by its
length and continue. -/
def assembleLines (eng : AsmEngine) :
    Nat → List String → AsmState → Except String (List (List Nat)) × AsmState
  | _, [], st => (Except.ok [], st)
  | ea, line :: rest, st =>
    match eng.getseg ea with
    | none => (Except.error "No segment at ea", st)
    | some seg =>
      match eng.assembleLine ea seg.sel (effIP eng ea seg) seg.bitness line with
      | none => (Except.error ("Assembler failed: " ++ line), st)
      | some buf =>
        let st1 : AsmState := { st with commits := st.commits ++ [(ea, buf)] }
        match assembleLines eng (ea + buf.length) rest st1 with
        | (Except.error msg, st2) => (Except.error msg, st2)
        | (Except.ok bufs, st2) => (Except.ok (buf :: bufs), st2)

/-- The argument of Assemble: one line, or a list of lines. -/
inductive AsmInput where
  | str (s : String)
  | list (ls : List String)

/-- The line normalization at the top of _Assemble: a single string becomes
a one-element list. -/
def AsmInput.lines : AsmInput → List String
  | AsmInput.str s => [s]
  | AsmInput.list ls => ls

/-- The value Assemble returns: `(False, message)`, `(True, buffer)` for a
single produced buffer, or `(True, buffers)`. -/
inductive AsmRet where
  | fail (msg : String)
  | okOne (buf : List Nat)
  | okMany (bufs : List (List Nat))
deriving Repr, DecidableEq

/-- _Assemble (idautils.py): run the line loop; on success a one-buffer
result list collapses to the single buffer (`if len(ret) == 1: ret =
ret[0]`). -/
def _Assemble (eng : AsmEngine) (ea : Nat) (line : AsmInput) (st : AsmState) :
    AsmRet × AsmState :=
  match assembleLines eng ea line.lines st with
  | (Except.error msg, st') => (AsmRet.fail msg, st')
  | (Except.ok bufs, st') =>
    match bufs with
    | [b] => (AsmRet.okOne b, st')
    | _ => (AsmRet.okMany bufs, st')

/-- Assemble (idautils.py): `old_batch = idc.Batch(1); ret = _Assemble(ea,
line); idc.Batch(old_batch); return ret`. -/
def Assemble (eng : AsmEngine) (ea : Nat) (line : AsmInput) (st : AsmState) :
    AsmRet × AsmState :=
  let p := Batch 1 st
  let q := _Assemble eng ea line p.2
  let r := Batch p.1 q.2
  (q.1, r.2)

/-- A concrete all-zero memory, used to instantiate the memory theorems. -/
def memZero : Mem := fun _ => 0

/-- A concrete string engine: image range [1, 100), whose full-image scan
under any options finds exactly one 6-byte string at address 1, and whose
by-index fetch reads the kernel list (failing on a negative index). -/
def strEngineA : StrEngine :=
  { minEA := 1
    maxEA := 100
    scan := fun _ ea1 ea2 => if ea1 = 1 ∧ ea2 = 100 then [{ ea := 1, type := 0, length := 6 }] else []
    get_strlist_item := fun i sl => if i < 0 then none else sl.get? i.toNat }

/-- A concrete string engine whose by-index fetch answers every index,
including negative ones, with a fixed record. -/
def strEngineB : StrEngine :=
  { minEA := 1
    maxEA := 100
    scan := fun _ _ _ => []
    get_strlist_item := fun _ _ => some { ea := 7, type := 0, length := 3 } }

/-- A concrete Strings state: default-like options, a one-entry kernel list
and a cached size of 1. -/
def strStateA : StringsState :=
  { opts := { strtypes := 1, minlen := 5, only_7bit := true, ea1 := 1, ea2 := 100,
              display_only_existing_strings := false }
    strlist := [{ ea := 1, type := 0, length := 6 }]
    size := 1 }

/-- A concrete decode engine: every address decodes with length 2 to a
record whose operand at every index is a void immediate, under the usual
six-operand bound. -/
def decEngineA : DecEngine :=
  { decode_insn := fun _ => 2
    get_current_instruction := fun ea => some { ea := ea, size := 2, itype := 5 }
    get_instruction_operand := fun _ _ => { type := o_void, reg := 0, dtyp := 0 }
    UA_MAXOP := 6 }

/-- A concrete assembler engine: one segment with selector 0 everywhere,
which assembles the line "nop" to the one-byte buffer [144] and rejects
every other line. -/
def asmEngineA : AsmEngine :=
  { getseg := fun _ => some { sel := 0, bitness := 1 }
    ask_selector := fun s => s
    assembleLine := fun _ _ _ _ line => if line = "nop" then some [144] else none }

/-- A concrete assembler state: interactive mode, nothing committed. -/
def asmStateA : AsmState := { batch := 0, commits := [] }

/-- A concrete decoded instruction with one retained operand. -/
def insnA : Insn :=
  { ea := 0, size := 2, itype := 5, Operands := [{ type := 1, reg := 3, dtyp := 2 }] }

/-- The line loop leaves the interaction-mode flag untouched: only the
commit log changes. -/
theorem assembleLines_batch (eng : AsmEngine) :
    ∀ (lines : List String) (ea : Nat) (st : AsmState),
      ((assembleLines eng ea lines st).2).batch = st.batch := by
  intro lines
  induction lines with
  | nil => intro ea st; rfl
  | cons line rest ih =>
    intro ea st
    simp only [assembleLines]
    split
    · rfl
    · split
      · rfl
      · rename_i seg hseg buf hbuf
        split
        · rename_i msg st2 hrec
          have h := ih (ea + buf.length) { st with commits := st.commits ++ [(ea, buf)] }
          rw [hrec] at h
          exact h
        · rename_i bufs st2 hrec
          have h := ih (ea + buf.length) { st with commits := st.commits ++ [(ea, buf)] }
          rw [hrec] at h
          exact h

/-- C2: Assemble switches the engine to batch mode around the call to
_Assemble and restores the prior interaction mode on every exit path: since
every failure of _Assemble is a returned `(False, message)` value rather
than an escape, the restoring Batch call always runs, and the final mode
equals the pre-call mode whatever the engine did; _Assemble itself never
touches the mode. -/
theorem Assemble_restores_batch (eng : AsmEngine) (ea : Nat) (line : AsmInput)
    (st : AsmState) :
    ((Assemble eng ea line st).2).batch = st.batch ∧
    ((_Assemble eng ea line st).2).batch = st.batch := by
  constructor
  · rfl
  · unfold _Assemble
    split
    · rename_i msg st' hrun
      have h := assembleLines_batch eng line.lines ea st
      rw [hrun] at h
      exact h
    · rename_i bufs st' hrun
      have h := assembleLines_batch eng line.lines ea st
      rw [hrun] at h
      split <;> exact h

/-- C6: two operands (or an operand and a resolved register descriptor) are
register-equal exactly when both the register number and the dtyp width
match, and the comparison never reads the addressing mode (the operand's
type field); has_reg holds exactly when the register numbers match,
whatever the widths. -/
theorem operand_register_equality (a b : Operand) (r : _reg_dtyp_t) :
    (regDtypEqb a.rd b.rd = true ↔ (a.reg = b.reg ∧ a.dtyp = b.dtyp)) ∧
    (regDtypEqb a.rd r = true ↔ (a.reg = r.reg ∧ a.dtyp = r.dtyp)) ∧
    (a.has_reg r = true ↔ a.reg = r.reg) ∧
    (∀ t : Nat, regDtypEqb (Operand.rd { a with type := t }) b.rd = regDtypEqb a.rd b.rd) ∧
    (∀ t : Nat, Operand.has_reg { a with type := t } r = Operand.has_reg a r) := by
  refine ⟨?_, ?_, ?_, ?_, ?_⟩ <;>
    simp [regDtypEqb, Operand.rd, Operand.has_reg]

/-- C6 witness: a register operand and a resolved descriptor with the same
number and width are register-equal, and a wider operand on the same
register still touches it. -/
theorem operand_register_equality_witness :
    regDtypEqb (Operand.rd { type := 1, reg := 3, dtyp := 2 }) { reg := 3, dtyp := 2 } = true ∧
    Operand.has_reg { type := 4, reg := 3, dtyp := 0 } { reg := 3, dtyp := 2 } = true :=
  ⟨((operand_register_equality { type := 1, reg := 3, dtyp := 2 }
      { type := 0, reg := 0, dtyp := 0 } { reg := 3, dtyp := 2 }).2.1).mpr ⟨rfl, rfl⟩,
   ((operand_register_equality { type := 4, reg := 3, dtyp := 0 }
      { type := 0, reg := 0, dtyp := 0 } { reg := 3, dtyp := 2 }).2.2.1).mpr rfl⟩

/-- C9: constructing Strings with the default setup leaves the cached size
at 0 whatever the engine's scan found: the constructor is the default setup
(which rescans and recomputes size as the scan's count) followed by the
unconditional assignment `self.size = 0`, so the recomputed count survives
only in the engine's own list. -/
theorem strings_default_init_size_zero (eng : StrEngine) (st0 : StringsState) :
    (Strings.init eng true st0).size = 0 ∧
    Strings.init eng true st0 =
      { Strings.setup eng Strings.STR_C 5 true false none none false st0 with size := 0 } ∧
    (Strings.setup eng Strings.STR_C 5 true false none none false st0).size =
      (Strings.init eng true st0).strlist.length := by
  refine ⟨rfl, rfl, rfl⟩

/-- C10: indexing a decoded instruction signals StopIteration exactly when
the index exceeds the operand count; the boundary index equal to the count
passes the bounds check and produces IndexError from the list indexing; a
strictly in-range index returns the operand. -/
theorem insn_getitem_boundary (i : Insn) (k : Nat) :
    (Insn.getItem i k = ItemResult.stopIteration ↔ i.Operands.length < k) ∧
    (Insn.getItem i i.Operands.length = ItemResult.indexError) ∧
    (∀ h : k < i.Operands.length,
      Insn.getItem i k = ItemResult.operand (i.Operands.get ⟨k, h⟩)) := by
  refine ⟨⟨?_, ?_⟩, ?_, ?_⟩
  · intro h
    unfold Insn.getItem at h
    split at h
    · assumption
    · cases hg : i.Operands.get? k <;> rw [hg] at h <;> simp at h
  · intro h
    unfold Insn.getItem
    rw [if_pos h]
  · unfold Insn.getItem
    rw [if_neg (lt_irrefl _), List.get?_eq_none.mpr (le_refl _)]
  · intro h
    unfold Insn.getItem
    rw [if_neg (by omega), List.get?_eq_get h]

/-- C10 witness: on a one-operand instruction, index 2 is past the count
and ends the sequence, the boundary index 1 raises the indexing error, and
index 0 returns the operand. -/
theorem insn_getitem_boundary_witness :
    Insn.getItem insnA 2 = ItemResult.stopIteration ∧
    Insn.getItem insnA 1 = ItemResult.indexError ∧
    Insn.getItem insnA 0 = ItemResult.operand { type := 1, reg := 3, dtyp := 2 } :=
  ⟨(insn_getitem_boundary insnA 2).1.mpr (by decide),
   (insn_getitem_boundary insnA 1).2.1,
   (insn_getitem_boundary insnA 0).2.2 (by decide)⟩

/-- The operand loop retains at most as many operands as the indices it may
still visit. -/
theorem collectOps_length_le (eng : DecEngine) (insn : InsnRec) :
    ∀ (fuel n : Nat), (collectOps eng insn n fuel).length ≤ fuel := by
  intro fuel
  induction fuel with
  | zero => intro n; simp [collectOps]
  | succ f ih =>
    intro n
    simp only [collectOps]
    split
    · simp
    · simpa using Nat.succ_le_succ (ih (n + 1))

/-- C5: DecodeInstruction returns None when the engine reports zero decoded
length or no current-instruction record; otherwise it returns an
instruction whose operand list, built by querying indices 0, 1, ... and
stopping at the first void-kind operand, never exceeds the engine's
UA_MAXOP bound; in particular a void-kind operand at index 0 yields an
instruction with zero operands.  Absence is the value None, never a
failure. -/
theorem decode_instruction_contract (eng : DecEngine) (ea : Nat) :
    (eng.decode_insn ea = 0 → DecodeInstruction eng ea = none) ∧
    (eng.get_current_instruction ea = none → DecodeInstruction eng ea = none) ∧
    (∀ i, DecodeInstruction eng ea = some i → i.Operands.length ≤ eng.UA_MAXOP) ∧
    (∀ insn, eng.decode_insn ea ≠ 0 → eng.get_current_instruction ea = some insn →
      (eng.get_instruction_operand insn 0).type = o_void →
      DecodeInstruction eng ea =
        some { ea := insn.ea, size := insn.size, itype := insn.itype, Operands := [] }) := by
  refine ⟨?_, ?_, ?_, ?_⟩
  · intro h
    unfold DecodeInstruction
    rw [if_pos h]
  · intro h
    unfold DecodeInstruction
    split
    · rfl
    · rw [h]
  · intro i hi
    unfold DecodeInstruction at hi
    split at hi
    · exact absurd hi (by simp)
    · cases hcur : eng.get_current_instruction ea with
      | none => rw [hcur] at hi; exact absurd hi (by simp)
      | some insn =>
        rw [hcur] at hi
        have := collectOps_length_le eng insn eng.UA_MAXOP 0
        cases hi
        simpa using this
  · intro insn hlen hcur hvoid
    unfold DecodeInstruction
    rw [if_neg hlen, hcur]
    have hops : collectOps eng insn 0 eng.UA_MAXOP = [] := by
      cases hmax : eng.UA_MAXOP with
      | zero => rfl
      | succ f => simp [collectOps, hvoid]
    simp only []
    rw [hops]

/-- C5 witness: the stub engine that reports length 2 everywhere but
answers a void operand at index 0 decodes to an instruction with zero
operands. -/
theorem decode_instruction_contract_witness :
    DecodeInstruction decEngineA 0 = some { ea := 0, size := 2, itype := 5, Operands := [] } :=
  (decode_instruction_contract decEngineA 0).2.2.2 { ea := 0, size := 2, itype := 5 }
    (by decide) rfl rfl

/-- C4: the clear_cache path is broken by Python truthiness.  clear_cache
calls refresh(0, 0), but refresh replaces any falsy bound by the image
default (`if not ea1: ea1 = inf.minEA`), so the kernel is asked to rescan
the whole image instead of being handed the empty range that clears: on an
engine whose full-image scan finds one string, clear_cache leaves size 1,
against its own docstring and the `ea1=ea2` comment.  For any nonzero x,
refresh(x, x) does reach the kernel as an empty range and clears the cache
to size 0, as the claim states. -/
theorem clear_cache_truthiness_bug :
    (Strings.clear_cache strEngineA strStateA).size = 1 ∧
    (Strings.refresh strEngineA (some 0) (some 0) strStateA).size = 1 ∧
    (∀ x : Nat, x ≠ 0 →
      (Strings.refresh strEngineA (some x) (some x) strStateA).size = 0) := by
  refine ⟨by decide, by decide, ?_⟩
  intro x hx
  unfold Strings.refresh refresh_strlist orDefault
  simp [hx]

/-- C8 counterexample: the claim says every negative index signals
end-of-sequence, but the bounds check is only `index >= self.size`, so a
negative index passes it and reaches the engine fetch: on a cache of size 1,
Get(-1) returns a populated StringItem, not end-of-sequence. -/
theorem strings_getitem_negative_counterexample :
    strStateA.size = 1 ∧ (-1 : Int) < 0 ∧
    Strings.getItem strEngineB strStateA (-1) =
      StrGetResult.item { ea := 7, type := 0, length := 3 } ∧
    Strings.getItem strEngineB strStateA (-1) ≠ StrGetResult.stopIteration := by
  refine ⟨rfl, by decide, by decide, by decide⟩

/-- C8 amended: Get signals end-of-sequence exactly when the index is at
least the cached size; every smaller index - negative indices included -
passes the bounds check and is handed to the engine's by-index fetch, whose
answer is returned as a populated StringItem, or as None when the fetch
transiently fails. -/
theorem strings_getitem_bounds (eng : StrEngine) (st : StringsState) (index : Int) :
    (Strings.getItem eng st index = StrGetResult.stopIteration ↔ (st.size : Int) ≤ index) ∧
    (index < (st.size : Int) →
      ((∀ si, eng.get_strlist_item index st.strlist = some si →
          Strings.getItem eng st index = StrGetResult.item (mkStringItem si)) ∧
       (eng.get_strlist_item index st.strlist = none →
          Strings.getItem eng st index = StrGetResult.noneItem))) := by
  constructor
  · constructor
    · intro h
      unfold Strings.getItem at h
      split at h
      · assumption
      · cases hg : eng.get_strlist_item index st.strlist <;> rw [hg] at h <;> simp at h
    · intro h
      unfold Strings.getItem
      rw [if_pos h]
  · intro hlt
    constructor
    · intro si hsi
      unfold Strings.getItem
      rw [if_neg (by omega), hsi]
    · intro hnone
      unfold Strings.getItem
      rw [if_neg (by omega), hnone]

/-- C8 witness (for the amended statement): on a cache of size 1, index 5
ends the sequence and index 0 returns the fetched item. -/
theorem strings_getitem_bounds_witness :
    Strings.getItem strEngineA strStateA 5 = StrGetResult.stopIteration ∧
    Strings.getItem strEngineA strStateA 0 =
      StrGetResult.item { ea := 1, type := 0, length := 6 } :=
  ⟨(strings_getitem_bounds strEngineA strStateA 5).1.mpr (by decide),
   ((strings_getitem_bounds strEngineA strStateA 0).2 (by decide)).1
     { ea := 1, type := 0, length := 6 } (by decide)⟩

/-- A successful run of the line loop produces one buffer per line. -/
theorem assembleLines_ok_length (eng : AsmEngine) :
    ∀ (lines : List String) (ea : Nat) (st : AsmState) (bufs : List (List Nat))
      (st' : AsmState), assembleLines eng ea lines st = (Except.ok bufs, st') →
      bufs.length = lines.length := by
  intro lines
  induction lines with
  | nil =>
    intro ea st bufs st' h
    simp only [assembleLines] at h
    cases h
    rfl
  | cons line rest ih =>
    intro ea st bufs st' h
    simp only [assembleLines] at h
    split at h
    · cases h
    · split at h
      · cases h
      · rename_i seg hseg buf hbuf
        split at h
        · cases h
        · rename_i bufs2 st2 hrec
          cases h
          simpa using ih (ea + buf.length) _ bufs2 _ hrec

/-- The line loop only appends to the engine's commit log: whatever was
committed before the call is still committed, in place, afterwards. -/
theorem assembleLines_commits_extend (eng : AsmEngine) :
    ∀ (lines : List String) (ea : Nat) (st : AsmState),
      ∃ tail, ((assembleLines eng ea lines st).2).commits = st.commits ++ tail := by
  intro lines
  induction lines with
  | nil => intro ea st; exact ⟨[], by simp [assembleLines]⟩
  | cons line rest ih =>
    intro ea st
    simp only [assembleLines]
    split
    · exact ⟨[], by simp⟩
    · split
      · exact ⟨[], by simp⟩
      · rename_i seg hseg buf hbuf
        obtain ⟨tail, htail⟩ := ih (ea + buf.length) { st with commits := st.commits ++ [(ea, buf)] }
        split
        · rename_i msg st2 hrec
          rw [hrec] at htail
          exact ⟨(ea, buf) :: tail, by simpa using htail⟩
        · rename_i bufs2 st2 hrec
          rw [hrec] at htail
          exact ⟨(ea, buf) :: tail, by simpa using htail⟩

/-- C3: the assembler processes lines in order: a current address with no
containing segment fails with the NoSegment message; a successful line
commits its buffer at the current address and the remaining lines are
processed at the address advanced by that buffer's length (so line 2's
effective address is the start plus the length of buffer 1); an engine
failure on a line aborts immediately with `(failure, message)`, keeping the
buffers committed for the earlier lines and producing none for later ones;
commits are never undone; and on success a single given line yields the
single buffer while a multi-line list yields the list of buffers. -/
theorem assemble_line_sequencing (eng : AsmEngine) (ea : Nat) (l1 l2 : String)
    (ls : List String) (st : AsmState) :
    (eng.getseg ea = none →
      assembleLines eng ea (l1 :: ls) st = (Except.error "No segment at ea", st)) ∧
    (∀ seg buf1, eng.getseg ea = some seg →
      eng.assembleLine ea seg.sel (effIP eng ea seg) seg.bitness l1 = some buf1 →
      assembleLines eng ea (l1 :: ls) st =
        ((assembleLines eng (ea + buf1.length) ls
            { st with commits := st.commits ++ [(ea, buf1)] }).1.map
              (fun bufs => buf1 :: bufs),
         (assembleLines eng (ea + buf1.length) ls
            { st with commits := st.commits ++ [(ea, buf1)] }).2)) ∧
    (∀ seg1 seg2 buf1, eng.getseg ea = some seg1 →
      eng.assembleLine ea seg1.sel (effIP eng ea seg1) seg1.bitness l1 = some buf1 →
      eng.getseg (ea + buf1.length) = some seg2 →
      eng.assembleLine (ea + buf1.length) seg2.sel (effIP eng (ea + buf1.length) seg2)
          seg2.bitness l2 = none →
      _Assemble eng ea (AsmInput.list [l1, l2]) st =
        (AsmRet.fail ("Assembler failed: " ++ l2),
         { st with commits := st.commits ++ [(ea, buf1)] })) ∧
    (∃ tail, ((assembleLines eng ea (l1 :: ls) st).2).commits = st.commits ++ tail) ∧
    (∀ bufs st', assembleLines eng ea [l1] st = (Except.ok bufs, st') →
      ∃ b, bufs = [b] ∧ _Assemble eng ea (AsmInput.str l1) st = (AsmRet.okOne b, st')) ∧
    (∀ bufs st', ls.length ≠ 1 → assembleLines eng ea ls st = (Except.ok bufs, st') →
      _Assemble eng ea (AsmInput.list ls) st = (AsmRet.okMany bufs, st')) := by
  refine ⟨?_, ?_, ?_, ?_, ?_, ?_⟩
  · intro h
    simp [assembleLines, h]
  · intro seg buf1 hseg hasm
    simp only [assembleLines, hseg, hasm]
    cases hrec : assembleLines eng (ea + buf1.length) ls
        { st with commits := st.commits ++ [(ea, buf1)] } with
    | mk res st2 => cases res <;> simp [Except.map]
  · intro seg1 seg2 buf1 hseg1 hasm1 hseg2 hasm2
    simp only [_Assemble, AsmInput.lines, assembleLines, hseg1, hasm1, hseg2, hasm2]
  · exact assembleLines_commits_extend eng (l1 :: ls) ea st
  · intro bufs st' hrun
    have hlen := assembleLines_ok_length eng [l1] ea st bufs st' hrun
    match bufs, hlen with
    | [b], _ =>
      refine ⟨b, rfl, ?_⟩
      simp [_Assemble, AsmInput.lines, hrun]
  · intro bufs st' hne hrun
    have hlen := assembleLines_ok_length eng ls ea st bufs st' hrun
    simp only [_Assemble, AsmInput.lines, hrun]
    match bufs, hlen with
    | [], _ => rfl
    | [b], h => exact absurd (by simpa using h.symm) hne
    | b :: c :: bs, _ => rfl

/-- C3 witness: on the one-segment engine that only accepts "nop", the
two-line call assembles "nop" at 0, commits its one-byte buffer, then fails
on "bad" at the advanced address and aborts with the failure message, the
committed buffer intact and no second buffer produced. -/
theorem assemble_line_sequencing_witness :
    _Assemble asmEngineA 0 (AsmInput.list ["nop", "bad"]) asmStateA =
      (AsmRet.fail ("Assembler failed: " ++ "bad"),
       { asmStateA with commits := asmStateA.commits ++ [(0, [144])] }) :=
  (assemble_line_sequencing asmEngineA 0 "nop" "bad" [] asmStateA).2.2.1
    { sel := 0, bitness := 1 } { sel := 0, bitness := 1 } [144]
    rfl (by decide) rfl (by decide)

/-- A width-w patch changes no byte outside [a, a + w). -/
theorem patch_data_outside :
    ∀ (w : Nat) (m : Mem) (a v x : Nat), (x < a ∨ a + w ≤ x) →
      patch_data m w a v x = m x := by
  intro w
  induction w with
  | zero => intro m a v x h; rfl
  | succ w ih =>
    intro m a v x h
    simp only [patch_data]
    have hs : x < a + 1 ∨ (a + 1) + w ≤ x := by omega
    rw [ih _ (a + 1) (v / 256) x hs]
    have hxa : x ≠ a := by omega
    simp [hxa]

/-- A width-w read depends only on the bytes in [a, a + w). -/
theorem get_data_congr :
    ∀ (w : Nat) (m1 m2 : Mem) (a : Nat),
      (∀ x, a ≤ x → x < a + w → m1 x = m2 x) →
      get_data m1 w a = get_data m2 w a := by
  intro w
  induction w with
  | zero => intro m1 m2 a h; rfl
  | succ w ih =>
    intro m1 m2 a h
    simp only [get_data]
    rw [h a (le_refl a) (by omega), ih m1 m2 (a + 1) (fun x h1 h2 => h x (by omega) (by omega))]

/-- Reading a width-w word just patched at the same address recovers the
written value modulo 256 ^ w. -/
theorem get_data_patch_data :
    ∀ (w : Nat) (m : Mem) (a v : Nat),
      get_data (patch_data m w a v) w a = v % 256 ^ w := by
  intro w
  induction w with
  | zero => intro m a v; simp [get_data, patch_data, Nat.mod_one]
  | succ w ih =>
    intro m a v
    simp only [get_data, patch_data]
    rw [patch_data_outside w _ (a + 1) (v / 256) a (Or.inl (by omega)), ih _ (a + 1) (v / 256)]
    show (if a = a then v % 256 else m a) % 256 + 256 * (v / 256 % 256 ^ w) = v % 256 ^ (w + 1)
    rw [if_pos rfl, Nat.mod_mod_of_dvd v dvd_rfl, pow_succ, mul_comm (256 ^ w) 256,
      Nat.mod_mul]

/-- Patching back the word just read is the identity on a byte-valued
memory. -/
theorem patch_data_roundtrip :
    ∀ (w : Nat) (m : Mem) (a : Nat), (∀ x, m x < 256) →
      patch_data m w a (get_data m w a) = m := by
  intro w
  induction w with
  | zero => intro m a hm; rfl
  | succ w ih =>
    intro m a hm
    simp only [get_data, patch_data]
    have hb : m a % 256 = m a := Nat.mod_eq_of_lt (hm a)
    have h1 : (m a % 256 + 256 * get_data m w (a + 1)) % 256 = m a := by omega
    have h2 : (m a % 256 + 256 * get_data m w (a + 1)) / 256 = get_data m w (a + 1) := by
      omega
    rw [h1, h2]
    have hm1 : (fun x => if x = a then m a else m x) = m := by
      funext x
      by_cases hx : x = a
      · rw [if_pos hx, hx]
      · rw [if_neg hx]
    rw [hm1]
    exact ih m (a + 1) hm

/-- The write loop changes no byte below its start address. -/
theorem writeWords_lt :
    ∀ (vs : List Nat) (m : Mem) (ea w x : Nat), x < ea →
      writeWords m ea vs w x = m x := by
  intro vs
  induction vs with
  | nil => intro m ea w x hx; rfl
  | cons v vs ih =>
    intro m ea w x hx
    simp only [writeWords]
    rw [ih _ (ea + w) w x (by omega)]
    exact patch_data_outside w m ea v x (Or.inl hx)

/-- After the write loop, the word at stride position i holds the i-th
written value modulo 256 ^ w (strides of width w do not overlap). -/
theorem get_data_writeWords :
    ∀ (vs : List Nat) (i : Nat) (m : Mem) (ea w : Nat), 0 < w →
      ∀ v, vs.get? i = some v →
        get_data (writeWords m ea vs w) w (ea + i * w) = v % 256 ^ w := by
  intro vs
  induction vs with
  | nil => intro i m ea w hw v hv; simp at hv
  | cons u vs ih =>
    intro i m ea w hw v hv
    cases i with
    | zero =>
      have hu : u = v := by simpa using hv
      simp only [writeWords]
      rw [show ea + 0 * w = ea by omega]
      rw [get_data_congr w _ (patch_data m w ea u) ea
        (fun x h1 h2 => writeWords_lt vs _ (ea + w) w x (by omega))]
      rw [get_data_patch_data, hu]
    | succ i =>
      simp only [writeWords]
      have harith : ea + (i + 1) * w = (ea + w) + i * w := by ring
      rw [harith]
      exact ih i _ (ea + w) w hw v (by simpa using hv)

/-- The read loop yields one word per count. -/
theorem readWords_length :
    ∀ (c : Nat) (m : Mem) (ea w : Nat), (readWords m ea c w).length = c := by
  intro c
  induction c with
  | zero => intro m ea w; rfl
  | succ c ih => intro m ea w; simp [readWords, ih]

/-- The i-th word of the read loop is the width-w word at stride position i
of the original memory. -/
theorem readWords_get? :
    ∀ (c i : Nat) (m : Mem) (ea w : Nat), i < c →
      (readWords m ea c w).get? i = some (get_data m w (ea + i * w)) := by
  intro c
  induction c with
  | zero => intro i m ea w h; omega
  | succ c ih =>
    intro i m ea w h
    cases i with
    | zero => simp [readWords]
    | succ i =>
      simp only [readWords, List.get?]
      rw [ih i m (ea + w) w (by omega)]
      have harith : ea + w + i * w = ea + (i + 1) * w := by ring
      rw [harith]

/-- Writing back the words just read is the identity on a byte-valued
memory. -/
theorem writeWords_readWords :
    ∀ (c : Nat) (w : Nat) (m : Mem) (ea : Nat), (∀ x, m x < 256) →
      writeWords m ea (readWords m ea c w) w = m := by
  intro c
  induction c with
  | zero => intro w m ea hm; rfl
  | succ c ih =>
    intro w m ea hm
    simp only [readWords, writeWords]
    rw [patch_data_roundtrip w m ea hm]
    exact ih w m (ea + w) hm

/-- For a valid write width, MapDataList materializes the whole read pass
over the original memory and only then writes the transformed words. -/
theorem MapDataList_valid (m : Mem) (ea len : Nat) (f : Nat → Nat) (w : Nat)
    (h : w = 1 ∨ w = 2 ∨ w = 4) :
    MapDataList m ea len f w =
      some (writeWords m ea ((readWords m ea len w).map f) w) := by
  have h8 : w = 1 ∨ w = 2 ∨ w = 4 ∨ w = 8 := by tauto
  unfold MapDataList
  rw [show GetDataList m ea len w = some (readWords m ea len w) from by
    unfold GetDataList; rw [if_pos h8]]
  show PutDataList m ea ((readWords m ea len w).map f) w = _
  unfold PutDataList
  rw [if_pos h]

/-- For any other width MapDataList fails before writing anything: either
the read side rejects the width, or (for width 8) the write side has no
patch primitive. -/
theorem MapDataList_invalid (m : Mem) (ea len : Nat) (f : Nat → Nat) (w : Nat)
    (h : ¬(w = 1 ∨ w = 2 ∨ w = 4)) :
    MapDataList m ea len f w = none := by
  unfold MapDataList
  by_cases h8 : w = 1 ∨ w = 2 ∨ w = 4 ∨ w = 8
  · rw [show GetDataList m ea len w = some (readWords m ea len w) from by
      unfold GetDataList; rw [if_pos h8]]
    show PutDataList m ea ((readWords m ea len w).map f) w = _
    unfold PutDataList
    rw [if_neg h]
  · rw [show GetDataList m ea len w = none from by
      unfold GetDataList; rw [if_neg h8]]

/-- C1: MapDataList completes the whole read pass into a materialized list
before any write (for a valid width its result is exactly "write the
f-image of the words read from the original memory"); hence the identity
transform leaves a byte-valued memory unchanged, and for any transform the
word finally stored at stride position i is f of the pre-transform word at
that position - the read pass never observes an in-flight write, even
though the read range and write range coincide.  For a width without a
write primitive the call fails with no write at all. -/
theorem MapDataList_reads_then_writes (m : Mem) (ea len w : Nat) (f : Nat → Nat) :
    ((w = 1 ∨ w = 2 ∨ w = 4) →
      MapDataList m ea len f w =
        some (writeWords m ea ((readWords m ea len w).map f) w)) ∧
    ((∀ x, m x < 256) → ∀ m', MapDataList m ea len (fun v => v) w = some m' → m' = m) ∧
    (∀ i m', i < len → MapDataList m ea len f w = some m' →
      get_data m' w (ea + i * w) = f (get_data m w (ea + i * w)) % 256 ^ w) ∧
    (¬(w = 1 ∨ w = 2 ∨ w = 4) → MapDataList m ea len f w = none) := by
  refine ⟨fun h => MapDataList_valid m ea len f w h, ?_, ?_, fun h => MapDataList_invalid m ea len f w h⟩
  · intro hm m' hmap
    by_cases hw : w = 1 ∨ w = 2 ∨ w = 4
    · rw [MapDataList_valid m ea len (fun v => v) w hw] at hmap
      have hm' : m' = writeWords m ea ((readWords m ea len w).map (fun v => v)) w :=
        (Option.some.inj hmap).symm
      rw [hm', List.map_id']
      exact writeWords_readWords len w m ea hm
    · rw [MapDataList_invalid m ea len (fun v => v) w hw] at hmap
      cases hmap
  · intro i m' hi hmap
    by_cases hw : w = 1 ∨ w = 2 ∨ w = 4
    · rw [MapDataList_valid m ea len f w hw] at hmap
      have hm' : m' = writeWords m ea ((readWords m ea len w).map f) w :=
        (Option.some.inj hmap).symm
      have hwpos : 0 < w := by omega
      have hget : ((readWords m ea len w).map f).get? i =
          some (f (get_data m w (ea + i * w))) := by
        rw [List.get?_map, readWords_get? len i m ea w hi]
        rfl
      rw [hm']
      exact get_data_writeWords ((readWords m ea len w).map f) i m ea w hwpos _ hget
    · rw [MapDataList_invalid m ea len f w hw] at hmap
      cases hmap

/-- C1 witness: on the all-zero two-byte range, mapping v + 3 in place at
width 1 stores, at position 0, the transform of the pre-transform word. -/
theorem MapDataList_reads_then_writes_witness :
    get_data (writeWords memZero 0 ((readWords memZero 0 2 1).map (fun v => v + 3)) 1) 1
        (0 + 0 * 1) =
      (fun v => v + 3) (get_data memZero 1 (0 + 0 * 1)) % 256 ^ 1 :=
  (MapDataList_reads_then_writes memZero 0 2 1 (fun v => v + 3)).2.2.1 0 _ (by decide)
    ((MapDataList_reads_then_writes memZero 0 2 1 (fun v => v + 3)).1 (Or.inl rfl))

/-- C7: the read side accepts exactly the widths 1, 2, 4 and 8 and the
write side exactly 1, 2 and 4 - width 8 reads but does not write, and the
asymmetry is visible as a contract violation on the write; for an accepted
width the read yields exactly count words at width-byte strides and the
write stores each value in sequence order at width-byte strides. -/
theorem data_list_width_contract (m : Mem) (ea count : Nat) (vals : List Nat) (w : Nat) :
    ((GetDataList m ea count w).isSome ↔ (w = 1 ∨ w = 2 ∨ w = 4 ∨ w = 8)) ∧
    ((PutDataList m ea vals w).isSome ↔ (w = 1 ∨ w = 2 ∨ w = 4)) ∧
    (GetDataList m ea count 8).isSome = true ∧
    PutDataList m ea vals 8 = none ∧
    (∀ ws, GetDataList m ea count w = some ws →
      ws.length = count ∧
      ∀ i, i < count → ws.get? i = some (get_data m w (ea + i * w))) ∧
    (∀ m', PutDataList m ea vals w = some m' →
      m' = writeWords m ea vals w ∧
      ∀ i v, vals.get? i = some v →
        get_data m' w (ea + i * w) = v % 256 ^ w) := by
  refine ⟨?_, ?_, ?_, ?_, ?_, ?_⟩
  · by_cases h : w = 1 ∨ w = 2 ∨ w = 4 ∨ w = 8 <;> simp [GetDataList, h]
  · by_cases h : w = 1 ∨ w = 2 ∨ w = 4 <;> simp [PutDataList, h]
  · simp [GetDataList]
  · simp [PutDataList]
  · intro ws hws
    unfold GetDataList at hws
    split at hws
    · have hws' : ws = readWords m ea count w := (Option.some.inj hws).symm
      subst hws'
      exact ⟨readWords_length count m ea w, fun i hi => readWords_get? count i m ea w hi⟩
    · cases hws
  · intro m' hm'
    unfold PutDataList at hm'
    split at hm'
    · rename_i hw
      have hm'' : m' = writeWords m ea vals w := (Option.some.inj hm').symm
      subst hm''
      refine ⟨rfl, fun i v hv => ?_⟩
      exact get_data_writeWords vals i m ea w (by omega) v hv
    · cases hm'

/-- C7 witness: width 8 is readable but not writable at a concrete memory. -/
theorem data_list_width_contract_witness :
    (GetDataList memZero 0 3 8).isSome = true ∧ PutDataList memZero 0 [1, 2] 8 = none :=
  ⟨(data_list_width_contract memZero 0 3 [1, 2] 8).2.2.1,
   (data_list_width_contract memZero 0 3 [1, 2] 8).2.2.2.1⟩
